import Mathlib

/-!
Verification of the half-precision squared-Euclidean-distance kernel
`distance_compare_avx2_f16` (src/vector/distance.c) against its
natural-language specification.

Modelling conventions (shallow embedding):
* A byte buffer is a total function `Nat → Nat`; every read is taken
  `% 256`, reflecting the `unsigned char` element type.
* `size_t` arithmetic is `Nat` arithmetic modulo `2 ^ 64` where the source
  relies on wrap-around (the loop bound `size - 8`); see `subWrap` and
  `mainGuard`.
* Floating-point arithmetic is modelled exactly over `ℚ`: every binary16
  value and every binary32 value is an exact rational, and additions,
  subtractions and multiplications of the kernel are carried out without
  rounding.  Infinity/NaN bit patterns (maximal exponent) have no rational
  value and are mapped to `0`; no theorem below depends on that branch.
* The 8-lane AVX2 accumulator is `Fin 8 → ℚ`; the two loops are folds over
  explicit lists of loop-variable values, which are proved to agree with
  the source's loop guards (`mainGuard` characterisation, `remIndices_eq`).
* For `size < 8` the guard `i <= size - 8` underflows and the first loop
  never exits (every value the loop variable takes keeps satisfying the
  guard, see the size-zero theorem below), so the kernel never returns a
  value; the model encodes this outcome as `none`.
-/

/-- 2^64, the modulus of `size_t` arithmetic on the 64-bit target. -/
def U64 : Nat := 2 ^ 64

/-- Wrapped subtraction `a - b` as computed on `size_t` operands
(C unsigned semantics): `(a + 2^64 - b) % 2^64`, assuming `b ≤ 2^64`. -/
def subWrap (a b : Nat) : Nat := (a + (U64 - b)) % U64

/-- The main loop's continuation test `i <= size - 8`, with `size - 8`
computed in `size_t` arithmetic. -/
def mainGuard (size i : Nat) : Bool := decide (i ≤ subWrap size 8)

/-- Exact rational value of an IEEE-754 binary16 bit pattern
(1 sign bit, 5 exponent bits, 10 mantissa bits).  Normal numbers decode to
`±2^(e-15)·(1 + m/2^10)`, subnormals to `±2^(-14)·(m/2^10)`.  The maximal
exponent (infinities and NaNs) has no rational value and is mapped to `0`;
no theorem in this file depends on that branch. -/
def decode16 (b : Nat) : ℚ :=
  let s : Nat := b / 2 ^ 15 % 2
  let e : Nat := b / 2 ^ 10 % 2 ^ 5
  let m : Nat := b % 2 ^ 10
  let mag : ℚ :=
    if e = 0 then (m : ℚ) / 2 ^ 24
    else if e = 31 then 0
    else (2 : ℚ) ^ e * (2 ^ 10 + (m : ℚ)) / 2 ^ 25
  if s = 1 then -mag else mag

/-- Exact rational value of an IEEE-754 binary32 bit pattern
(1 sign bit, 8 exponent bits, 23 mantissa bits).  Normal numbers decode to
`±2^(e-127)·(1 + m/2^23)`, subnormals to `±2^(-126)·(m/2^23)`.  The maximal
exponent (infinities and NaNs) is mapped to `0`; no theorem in this file
depends on that branch. -/
def decode32 (b : Nat) : ℚ :=
  let s : Nat := b / 2 ^ 31 % 2
  let e : Nat := b / 2 ^ 23 % 2 ^ 8
  let m : Nat := b % 2 ^ 23
  let mag : ℚ :=
    if e = 0 then (m : ℚ) / 2 ^ 149
    else if e = 255 then 0
    else (2 : ℚ) ^ e * (2 ^ 23 + (m : ℚ)) / 2 ^ 150
  if s = 1 then -mag else mag

/-- Lane `j` of the 16 bytes loaded by `_mm_loadu_si128` at byte offset
`off`, as presented to `_mm256_cvtph_ps`: the little-endian 16-bit pattern
`v[off+2j] | (v[off+2j+1] << 8)`. -/
def lane16 (v : Nat → Nat) (off j : Nat) : Nat :=
  v (off + 2 * j) % 256 + 256 * (v (off + 2 * j + 1) % 256)

/-- Stored bit pattern of element `i` of a buffer: the two little-endian
bytes at byte offset `2*i` (the layout the vectorized phase reads). -/
def elem16 (v : Nat → Nat) (i : Nat) : Nat :=
  v (2 * i) % 256 + 256 * (v (2 * i + 1) % 256)

/-- The remainder phase's byte pack `(vec[i] << 8) | vec[i + 1]`:
big-endian-style, and at byte offsets `i`, `i+1` where `i` is the loop
index the source also steps per element. -/
def packBE (v : Nat → Nat) (i : Nat) : Nat :=
  v i % 256 * 256 + v (i + 1) % 256

/-- Value the remainder phase obtains from the union type pun
(`conv.in = v; ... conv.out`): the 16-bit pattern becomes the low half of a
binary32 bit pattern and is read back as a `float`.  The C union leaves the
upper two bytes of `conv.out` unspecified; the model resolves them to zero
(the most charitable concrete choice).  Note this is a binary32
reinterpretation, not a binary16 decode. -/
def punToFloat (p : Nat) : ℚ := decode32 (p % 2 ^ 16)

/-- Iteration counters of the vectorized loop: the `t`-th iteration runs
with loop variable `i = 8*t`.  The loop performs `size / 8` iterations when
`8 ≤ size < 2^64`; the agreement with the source guard `mainGuard` is
proved in the main-loop safety theorem below. -/
def vecIters (size : Nat) : List Nat := List.range (size / 8)

/-- Loop-variable values of the remainder loop: starting at `i0`, stepping
by 2 per iteration (one `i++` inside the body plus the loop's own `i++`),
while `i < size`.  Closed form; `remIndices_eq` proves it satisfies the
loop's recurrence. -/
def remIndices (i0 size : Nat) : List Nat :=
  (List.range ((size - i0 + 1) / 2)).map (fun k => i0 + 2 * k)

/-- One vectorized iteration: lane-wise addition of the squared difference
of the decoded lanes into the accumulator (`_mm256_cvtph_ps`,
`_mm256_sub_ps`, `_mm256_mul_ps`, `_mm256_add_ps`); byte offset `i*2 = 16*t`. -/
def stepVec (v1 v2 : Nat → Nat) (acc : Fin 8 → ℚ) (t : Nat) (j : Fin 8) : ℚ :=
  acc j + (decode16 (lane16 v1 (16 * t) j) - decode16 (lane16 v2 (16 * t) j)) ^ 2

/-- One remainder iteration: the scalar squared difference is broadcast by
`_mm256_set1_ps` and added into every lane of the accumulator. -/
def stepRem (v1 v2 : Nat → Nat) (acc : Fin 8 → ℚ) (i : Nat) (j : Fin 8) : ℚ :=
  acc j + (punToFloat (packBE v1 i) - punToFloat (packBE v2 i)) ^ 2

/-- The 8-lane accumulator after both phases, starting from
`_mm256_setzero_ps`. -/
def finalAcc (v1 v2 : Nat → Nat) (size : Nat) : Fin 8 → ℚ :=
  (remIndices (8 * (size / 8)) size).foldl (stepRem v1 v2)
    ((vecIters size).foldl (stepVec v1 v2) fun _ => 0)

/-- Final horizontal reduction: the low and high 128-bit halves are added
lane-wise (`result[k] = acc[k] + acc[k+4]`), then the four scalar results
are summed left to right. -/
def horizontalSum (acc : Fin 8 → ℚ) : ℚ :=
  (((acc 0 + acc 4) + (acc 1 + acc 5)) + (acc 2 + acc 6)) + (acc 3 + acc 7)

/-- Model of `distance_compare_avx2_f16`.  For `size < 8` the loop bound
`size - 8` underflows and the vectorized loop never exits (see the
size-zero theorem below), so no value is ever returned: encoded as `none`. -/
def distance_compare_avx2_f16 (v1 v2 : Nat → Nat) (size : Nat) : Option ℚ :=
  if size < 8 then none else some (horizontalSum (finalAcc v1 v2 size))

/-- Reference value from the specification: the brute-force sum, over all
element indices below `size`, of the squared difference of the decoded
binary16 elements. -/
def bruteForceSumSq (v1 v2 : Nat → Nat) (size : Nat) : ℚ :=
  ((List.range size).map
    (fun i => (decode16 (elem16 v1 i) - decode16 (elem16 v2 i)) ^ 2)).sum

/-- Total contribution of the vectorized phase: over all iterations, the
sum over the 8 lanes of the squared decoded differences. -/
def vecTotal (v1 v2 : Nat → Nat) (size : Nat) : ℚ :=
  ((vecIters size).map (fun t =>
    ((List.range 8).map (fun k =>
      (decode16 (lane16 v1 (16 * t) k) - decode16 (lane16 v2 (16 * t) k)) ^ 2)).sum)).sum

/-- Sum of the scalar squared differences produced by the remainder phase
(before the eight-fold broadcast multiplication). -/
def remTotal (v1 v2 : Nat → Nat) (size : Nat) : ℚ :=
  ((remIndices (8 * (size / 8)) size).map (fun i =>
    (punToFloat (packBE v1 i) - punToFloat (packBE v2 i)) ^ 2)).sum

/-- Element indices the two phases claim to visit: iteration `t` of the
vectorized phase covers elements `8*t .. 8*t+7`, and each remainder
iteration with loop variable `i` processes (what the source treats as)
element `i`. -/
def coveredIndices (size : Nat) : List Nat :=
  ((vecIters size).map (fun t => (List.range 8).map (fun k => 8 * t + k))).flatten
    ++ remIndices (8 * (size / 8)) size

/-- The all-zero byte buffer. -/
def zeroBuf : Nat → Nat := fun _ => 0

/-- Buffer whose ninth element (bytes 16, 17) stores the binary16 pattern
`0x3C00` (value 1.0) little-endian, all other bytes zero. -/
def oneAt8 : Nat → Nat := fun k => if k = 17 then 60 else 0

/-- Buffer that agrees with `zeroBuf` everywhere except at byte offsets 16
and 17 — the bytes storing the ninth element. -/
def ninthChanged : Nat → Nat :=
  fun k => if k = 16 then 60 else if k = 17 then 7 else 0

/-! ### Helper lemmas about list sums and the loop folds -/

lemma listMap_congr {α β : Type} (L : List α) (f g : α → β) (h : ∀ x, f x = g x) :
    L.map f = L.map g := by
  rw [show f = g from funext h]

lemma listSum_map_zero {α : Type} (L : List α) : (L.map fun _ => (0 : ℚ)).sum = 0 := by
  induction L with
  | nil => simp
  | cons x L ih => simp [ih]

/-- Value of a lane after folding the vectorized steps over a list of
iteration counters. -/
lemma foldl_stepVec (v1 v2 : Nat → Nat) (L : List Nat) :
    ∀ (a : Fin 8 → ℚ) (j : Fin 8),
      (L.foldl (stepVec v1 v2) a) j =
        a j + (L.map (fun t =>
          (decode16 (lane16 v1 (16 * t) j) - decode16 (lane16 v2 (16 * t) j)) ^ 2)).sum := by
  induction L with
  | nil => intro a j; simp
  | cons t L ih =>
      intro a j
      rw [List.foldl_cons, ih, List.map_cons, List.sum_cons, stepVec]
      ring

/-- Value of a lane after folding the remainder steps over a list of loop
indices. -/
lemma foldl_stepRem (v1 v2 : Nat → Nat) (L : List Nat) :
    ∀ (a : Fin 8 → ℚ) (j : Fin 8),
      (L.foldl (stepRem v1 v2) a) j =
        a j + (L.map (fun i =>
          (punToFloat (packBE v1 i) - punToFloat (packBE v2 i)) ^ 2)).sum := by
  induction L with
  | nil => intro a j; simp
  | cons i L ih =>
      intro a j
      rw [List.foldl_cons, ih, List.map_cons, List.sum_cons, stepRem]
      ring

/-- Closed form for each lane of the final accumulator: the lane's share of
the vectorized phase plus the full remainder sum (every lane receives every
broadcast remainder contribution). -/
lemma finalAcc_apply (v1 v2 : Nat → Nat) (size : Nat) (j : Fin 8) :
    finalAcc v1 v2 size j =
      ((vecIters size).map (fun t =>
        (decode16 (lane16 v1 (16 * t) j) - decode16 (lane16 v2 (16 * t) j)) ^ 2)).sum
      + remTotal v1 v2 size := by
  rw [finalAcc, foldl_stepRem, foldl_stepVec, remTotal]
  ring

/-- Splitting a sum over `List.range (a + b)` into the first `a` terms and
the remaining `b` terms. -/
lemma sum_range_append (f : Nat → ℚ) (a b : Nat) :
    ((List.range (a + b)).map f).sum =
      ((List.range a).map f).sum + ((List.range b).map (fun k => f (a + k))).sum := by
  induction b with
  | zero => simp
  | succ b ih =>
      rw [show a + (b + 1) = (a + b) + 1 from rfl, List.range_succ, List.range_succ]
      simp only [List.map_append, List.sum_append, List.map_cons, List.map_nil,
        List.sum_cons, List.sum_nil, ih]
      ring

/-- Grouping a sum over `List.range (8 * m)` into `m` groups of 8. -/
lemma sum_range_group8 (f : Nat → ℚ) (m : Nat) :
    ((List.range (8 * m)).map f).sum =
      ((List.range m).map (fun t =>
        ((List.range 8).map (fun k => f (8 * t + k))).sum)).sum := by
  induction m with
  | zero => simp
  | succ m ih =>
      rw [show 8 * (m + 1) = 8 * m + 8 from rfl, sum_range_append, ih,
        show List.range (m + 1) = List.range m ++ [m] from List.range_succ m]
      simp only [List.map_append, List.sum_append, List.map_cons, List.map_nil,
        List.sum_cons, List.sum_nil]
      ring

/-- Combining the eight per-lane sums of the horizontal reduction into one
sum of per-iteration 8-lane totals. -/
lemma eight_lane_sum (L : List Nat) (c : Nat → Nat → ℚ) :
    (((((L.map fun t => c t 0).sum + (L.map fun t => c t 4).sum) +
        ((L.map fun t => c t 1).sum + (L.map fun t => c t 5).sum)) +
        ((L.map fun t => c t 2).sum + (L.map fun t => c t 6).sum)) +
        ((L.map fun t => c t 3).sum + (L.map fun t => c t 7).sum)) =
      (L.map fun t => ((List.range 8).map fun k => c t k).sum).sum := by
  induction L with
  | nil => simp
  | cons t L ih =>
      simp only [List.map_cons, List.sum_cons]
      rw [← ih, show List.range 8 = [0, 1, 2, 3, 4, 5, 6, 7] from rfl]
      simp only [List.map_cons, List.map_nil, List.sum_cons, List.sum_nil]
      ring

/-- The closed form `remIndices` satisfies the remainder loop's recurrence:
run the body at `i0` (and advance by 2) while `i0 < size`. -/
lemma remIndices_eq (i0 size : Nat) :
    remIndices i0 size =
      if i0 < size then i0 :: remIndices (i0 + 2) size else [] := by
  by_cases h : i0 < size
  · rw [if_pos h, remIndices, remIndices,
      show (size - i0 + 1) / 2 = (size - (i0 + 2) + 1) / 2 + 1 by omega,
      List.range_succ_eq_map]
    simp only [List.map_cons, List.map_map, Nat.mul_zero, Nat.add_zero, List.cons.injEq,
      true_and]
    apply listMap_congr
    intro k
    simp only [Function.comp_apply]
    omega
  · rw [if_neg h, remIndices, show (size - i0 + 1) / 2 = 0 by omega]
    simp

/-- For `8 ≤ size` the kernel returns the horizontal sum of the final
accumulator. -/
lemma distance_some (v1 v2 : Nat → Nat) (size : Nat) (h8 : 8 ≤ size) :
    distance_compare_avx2_f16 v1 v2 size = some (horizontalSum (finalAcc v1 v2 size)) := by
  rw [distance_compare_avx2_f16, if_neg (by omega)]

/-- Decomposition of the returned scalar: the vectorized phase contributes
its lane-wise total once, while every scalar remainder contribution is
counted eight times (broadcast into 8 lanes, all of which the final
reduction sums). -/
lemma distance_eq_totals (v1 v2 : Nat → Nat) (size : Nat) (h8 : 8 ≤ size) :
    distance_compare_avx2_f16 v1 v2 size =
      some (vecTotal v1 v2 size + 8 * remTotal v1 v2 size) := by
  rw [distance_some v1 v2 size h8]
  apply congrArg
  rw [horizontalSum]
  simp only [finalAcc_apply,
    show ((0 : Fin 8) : Nat) = 0 from rfl, show ((1 : Fin 8) : Nat) = 1 from rfl,
    show ((2 : Fin 8) : Nat) = 2 from rfl, show ((3 : Fin 8) : Nat) = 3 from rfl,
    show ((4 : Fin 8) : Nat) = 4 from rfl, show ((5 : Fin 8) : Nat) = 5 from rfl,
    show ((6 : Fin 8) : Nat) = 6 from rfl, show ((7 : Fin 8) : Nat) = 7 from rfl]
  rw [vecTotal, ← eight_lane_sum (vecIters size) (fun t k =>
    (decode16 (lane16 v1 (16 * t) k) - decode16 (lane16 v2 (16 * t) k)) ^ 2)]
  ring

/-- When the element count is an exact nonzero multiple of 8, the remainder
loop body never runs. -/
lemma remTotal_of_dvd (v1 v2 : Nat → Nat) (m : Nat) :
    remTotal v1 v2 (8 * m) = 0 := by
  rw [remTotal, show 8 * (8 * m / 8) = 8 * m by omega, remIndices,
    show (8 * m - 8 * m + 1) / 2 = 0 by omega]
  simp

/-- For an exact multiple of 8, the vectorized phase's total is exactly the
brute-force sum over all elements: lane `k` of iteration `t` holds element
`8*t + k`. -/
lemma vecTotal_eq_bruteForce (v1 v2 : Nat → Nat) (m : Nat) :
    vecTotal v1 v2 (8 * m) = bruteForceSumSq v1 v2 (8 * m) := by
  rw [vecTotal, bruteForceSumSq, sum_range_group8, vecIters, show 8 * m / 8 = m by omega]
  apply congrArg
  apply listMap_congr
  intro t
  apply congrArg
  apply listMap_congr
  intro k
  rw [elem16, elem16, lane16, lane16, show 2 * (8 * t + k) = 16 * t + 2 * k by ring]

/-- Lane-level symmetry: swapping the two inputs leaves every lane of the
final accumulator unchanged, because each squared difference is symmetric. -/
lemma finalAcc_symm (v1 v2 : Nat → Nat) (size : Nat) (j : Fin 8) :
    finalAcc v1 v2 size j = finalAcc v2 v1 size j := by
  have h1 : (vecIters size).map (fun t =>
        (decode16 (lane16 v1 (16 * t) j) - decode16 (lane16 v2 (16 * t) j)) ^ 2)
      = (vecIters size).map (fun t =>
        (decode16 (lane16 v2 (16 * t) j) - decode16 (lane16 v1 (16 * t) j)) ^ 2) :=
    listMap_congr _ _ _ (fun t => by ring)
  have h2 : (remIndices (8 * (size / 8)) size).map (fun i =>
        (punToFloat (packBE v1 i) - punToFloat (packBE v2 i)) ^ 2)
      = (remIndices (8 * (size / 8)) size).map (fun i =>
        (punToFloat (packBE v2 i) - punToFloat (packBE v1 i)) ^ 2) :=
    listMap_congr _ _ _ (fun i => by ring)
  rw [finalAcc_apply, finalAcc_apply, remTotal, remTotal, h1, h2]

/-- Lane-level identity: comparing a buffer against itself makes every
squared difference vanish, in both phases. -/
lemma finalAcc_self (v : Nat → Nat) (size : Nat) (j : Fin 8) :
    finalAcc v v size j = 0 := by
  have h1 : (vecIters size).map (fun t =>
        (decode16 (lane16 v (16 * t) j) - decode16 (lane16 v (16 * t) j)) ^ 2)
      = (vecIters size).map (fun _ => (0 : ℚ)) :=
    listMap_congr _ _ _ (fun t => by ring)
  have h2 : (remIndices (8 * (size / 8)) size).map (fun i =>
        (punToFloat (packBE v i) - punToFloat (packBE v i)) ^ 2)
      = (remIndices (8 * (size / 8)) size).map (fun _ => (0 : ℚ)) :=
    listMap_congr _ _ _ (fun i => by ring)
  rw [finalAcc_apply, remTotal, h1, h2, listSum_map_zero, listSum_map_zero]
  ring

/-! ### Claim theorems -/

/-- C1: the claimed invariant — the returned scalar equals the sum, over
the element range actually visited, of the squared differences of the
binary16-decoded elements — fails on the code.  Failing input: `size = 9`,
`vec1` all zero except bytes 16/17 storing binary16 `1.0` (pattern
`0x3C00`), `vec2` all zero.  All nine element indices are visited
(vectorized phase: 0–7, remainder iteration: 8), so the claimed sum is `1`,
but the kernel returns `0`: the remainder iteration reads bytes 8 and 9
(element-index offsets instead of byte offsets) and type-puns them instead
of decoding binary16. -/
theorem c1_invariant_fails_at_size_nine :
    distance_compare_avx2_f16 oneAt8 zeroBuf 9 = some 0
    ∧ bruteForceSumSq oneAt8 zeroBuf 9 = 1 := by
  constructor
  · norm_num [distance_compare_avx2_f16, finalAcc, vecIters, remIndices, stepVec, stepRem,
      horizontalSum, lane16, packBE, punToFloat, decode16, decode32, oneAt8, zeroBuf,
      show List.range 1 = [0] from rfl,
      show ((0 : Fin 8) : Nat) = 0 from rfl, show ((1 : Fin 8) : Nat) = 1 from rfl,
      show ((2 : Fin 8) : Nat) = 2 from rfl, show ((3 : Fin 8) : Nat) = 3 from rfl,
      show ((4 : Fin 8) : Nat) = 4 from rfl, show ((5 : Fin 8) : Nat) = 5 from rfl,
      show ((6 : Fin 8) : Nat) = 6 from rfl, show ((7 : Fin 8) : Nat) = 7 from rfl]
  · norm_num [bruteForceSumSq, elem16, decode16, oneAt8, zeroBuf,
      show List.range 9 = [0, 1, 2, 3, 4, 5, 6, 7, 8] from rfl]

/-- C2: the coverage property fails on the code.  For `size = 10` (which is
`≥ 8` and not divisible by 8) the two phases together visit element indices
`0..8` only: the remainder loop advances its index twice per iteration
(once in the body, once in the loop step), so index 9 is never visited. -/
theorem c2_coverage_fails_at_size_ten :
    8 ≤ 10 ∧ ¬ (8 ∣ (10 : Nat)) ∧ (9 : Nat) < 10
    ∧ coveredIndices 10 = [0, 1, 2, 3, 4, 5, 6, 7, 8]
    ∧ (9 : Nat) ∉ coveredIndices 10 := by
  refine ⟨by decide, by decide, by decide, rfl, by decide⟩

/-- C3 counterexample: `size = 0` is divisible by 8, yet the kernel returns
no value at all: the loop bound `size - 8` underflows and the vectorized
loop never exits, so the result cannot be within any tolerance of the
brute-force sum (which is `0`). -/
theorem c3_size_zero_counterexample :
    (8 ∣ (0 : Nat)) ∧ distance_compare_avx2_f16 zeroBuf oneAt8 0 = none
    ∧ bruteForceSumSq zeroBuf oneAt8 0 = 0 := by
  exact ⟨by decide, rfl, rfl⟩

/-- C3 (amended to nonzero multiples of 8): for every pair of buffers whose
size is a positive multiple of 8, the kernel's result equals the
brute-force sum of squared decoded (binary16→binary32) per-element
differences.  In this exact-arithmetic model of the float computation the
two agree exactly, hence in particular within relative error `1e-5`. -/
theorem c3_vectorized_matches_bruteforce (v1 v2 : Nat → Nat) (size : Nat)
    (hdvd : 8 ∣ size) (hpos : 0 < size) :
    distance_compare_avx2_f16 v1 v2 size = some (bruteForceSumSq v1 v2 size) := by
  obtain ⟨m, rfl⟩ := hdvd
  have h8 : 8 ≤ 8 * m := by omega
  rw [distance_eq_totals v1 v2 (8 * m) h8, remTotal_of_dvd v1 v2 m,
    vecTotal_eq_bruteForce v1 v2 m]
  norm_num

/-- Witness for C3: a concrete size-16 instance satisfying the hypotheses. -/
theorem c3_vectorized_matches_bruteforce_witness :
    (8 ∣ (16 : Nat)) ∧ (0 : Nat) < 16
    ∧ distance_compare_avx2_f16 zeroBuf oneAt8 16 = some (bruteForceSumSq zeroBuf oneAt8 16) :=
  ⟨by decide, by decide, c3_vectorized_matches_bruteforce zeroBuf oneAt8 16 (by decide) (by decide)⟩

/-- C4: the claim that `size = 0` returns `0` is right about the intent but
wrong about the code.  At `size = 0` the loop bound `size - 8` underflows
to `2^64 - 8`, and every value the loop variable ever takes (a multiple of
8 reduced mod `2^64`) satisfies the continuation test, so the vectorized
loop never exits and the kernel never returns; the model records no
returned value. -/
theorem c4_size_zero_never_returns :
    subWrap 0 8 = 2 ^ 64 - 8
    ∧ (∀ k : Nat, mainGuard 0 (8 * k % 2 ^ 64) = true)
    ∧ distance_compare_avx2_f16 zeroBuf zeroBuf 0 = none := by
  have hU : U64 = 18446744073709551616 := by norm_num [U64]
  refine ⟨?_, ?_, rfl⟩
  · rw [subWrap, hU]; norm_num
  · intro k
    rw [mainGuard, subWrap, hU]
    simp only [decide_eq_true_eq]
    omega

/-- C5: for `8 ≤ size < 2^64` the vectorized loop runs exactly `size / 8`
iterations (iteration `t` has loop variable `i = 8*t` and reads the 16
bytes at offset `i*2 = 16*t` from each buffer, all within the first
`2*size` bytes), the iteration space is exactly characterised by the
source's guard `i <= size - 8`, and the guard fails — the loop terminates —
right after the last iteration. -/
theorem c5_main_loop_safety (size : Nat) (h8 : 8 ≤ size) (hlt : size < U64) :
    (vecIters size).length = size / 8
    ∧ (∀ t ∈ vecIters size, 16 * t + 16 ≤ 2 * size)
    ∧ (∀ t : Nat, t ∈ vecIters size ↔ mainGuard size (8 * t) = true)
    ∧ mainGuard size (8 * (size / 8)) = false := by
  have hU : U64 = 18446744073709551616 := by norm_num [U64]
  rw [hU] at hlt
  refine ⟨by simp [vecIters], ?_, ?_, ?_⟩
  · intro t ht
    rw [vecIters, List.mem_range] at ht
    omega
  · intro t
    rw [vecIters, List.mem_range, mainGuard, subWrap, hU]
    simp only [decide_eq_true_eq]
    omega
  · rw [mainGuard, subWrap, hU]
    simp only [decide_eq_false_iff_not]
    omega

/-- Witness for C5: the concrete size 9. -/
theorem c5_main_loop_safety_witness :
    (8 : Nat) ≤ 9 ∧ (9 : Nat) < U64
    ∧ ((vecIters 9).length = 9 / 8
      ∧ (∀ t ∈ vecIters 9, 16 * t + 16 ≤ 2 * 9)
      ∧ (∀ t : Nat, t ∈ vecIters 9 ↔ mainGuard 9 (8 * t) = true)
      ∧ mainGuard 9 (8 * (9 / 8)) = false) :=
  ⟨by decide, by norm_num [U64], c5_main_loop_safety 9 (by decide) (by norm_num [U64])⟩

/-- C6: the remainder phase does pack the two raw bytes as
`(byte[i] << 8) | byte[i+1]`, but it does not interpret the resulting
pattern per IEEE-754 binary16 semantics: it type-puns the 16-bit pattern
into the low bytes of a `float` (binary32) object.  On the pattern `0x3C00`
(= 15360, bytes `0x3C`, `0x00`) binary16 decoding yields `1`, whereas the
pun yields the binary32 subnormal `15360 / 2^149`; the two differ. -/
theorem c6_pun_is_not_binary16 :
    packBE (fun k => if k = 0 then 60 else 0) 0 = 15360
    ∧ decode16 15360 = 1
    ∧ punToFloat 15360 = 15360 / 2 ^ 149
    ∧ punToFloat 15360 ≠ decode16 15360 := by
  refine ⟨rfl, by norm_num [decode16], by norm_num [punToFloat, decode32], ?_⟩
  norm_num [punToFloat, decode32, decode16]

/-- C7: symmetry — swapping the two input buffers never changes the result
(both phases square a difference, and for `size < 8` neither call returns). -/
theorem c7_symmetry (v1 v2 : Nat → Nat) (size : Nat) :
    distance_compare_avx2_f16 v1 v2 size = distance_compare_avx2_f16 v2 v1 size := by
  by_cases h : size < 8
  · rw [distance_compare_avx2_f16, distance_compare_avx2_f16, if_pos h, if_pos h]
  · rw [distance_compare_avx2_f16, distance_compare_avx2_f16, if_neg h, if_neg h,
      horizontalSum, horizontalSum]
    simp only [finalAcc_symm v1 v2]

/-- C8 counterexample: the identity `distance(v, v, n) = 0` fails at
`n = 0`: the loop bound underflows and the kernel never returns a value,
so in particular it does not return `0`. -/
theorem c8_identity_fails_at_size_zero :
    distance_compare_avx2_f16 zeroBuf zeroBuf 0 ≠ some 0 := by
  simp [distance_compare_avx2_f16]

/-- C8 (amended to `8 ≤ size`, the sizes at which the kernel returns):
comparing any buffer against itself yields exactly `0` — every squared
difference vanishes in both phases. -/
theorem c8_identity (v : Nat → Nat) (size : Nat) (h8 : 8 ≤ size) :
    distance_compare_avx2_f16 v v size = some 0 := by
  rw [distance_some v v size h8]
  apply congrArg
  rw [horizontalSum]
  simp only [finalAcc_self]
  norm_num

/-- Witness for C8: concrete buffer and size 9. -/
theorem c8_identity_witness :
    (8 : Nat) ≤ 9 ∧ distance_compare_avx2_f16 oneAt8 oneAt8 9 = some 0 :=
  ⟨by decide, c8_identity oneAt8 9 (by decide)⟩

/-- C9: each scalar squared difference of the remainder phase enters the
result eight-fold: `_mm256_set1_ps` broadcasts it into all 8 lanes of the
accumulator and the final horizontal reduction sums all 8 lanes, so the
returned scalar is the vectorized total plus 8 times the remainder total. -/
theorem c9_broadcast_counts_eightfold (v1 v2 : Nat → Nat) (size : Nat) (h8 : 8 ≤ size) :
    distance_compare_avx2_f16 v1 v2 size =
      some (vecTotal v1 v2 size + 8 * remTotal v1 v2 size) :=
  distance_eq_totals v1 v2 size h8

/-- Witness for C9: concrete buffers and size 9 (one remainder iteration). -/
theorem c9_broadcast_counts_eightfold_witness :
    (8 : Nat) ≤ 9 ∧ distance_compare_avx2_f16 ninthChanged zeroBuf 9 =
      some (vecTotal ninthChanged zeroBuf 9 + 8 * remTotal ninthChanged zeroBuf 9) :=
  ⟨by decide, c9_broadcast_counts_eightfold ninthChanged zeroBuf 9 (by decide)⟩

/-- C10: the result at `size = 9` does not depend on the ninth element's
stored bytes.  `ninthChanged` and `zeroBuf` agree everywhere except at byte
offsets 16 and 17 — exactly the bytes storing element 8 — and their stored
ninth elements differ, yet the kernel returns the same value for the input
pairs `(ninthChanged, zeroBuf)` and `(zeroBuf, zeroBuf)`: the remainder
phase reads bytes 8 and 9 (offsets `i`, `i+1` with `i` the element index)
and never touches bytes 16 and 17. -/
theorem c10_ninth_element_bytes_ignored :
    (∀ k : Nat, ninthChanged k = zeroBuf k ∨ k = 16 ∨ k = 17)
    ∧ ninthChanged 16 ≠ zeroBuf 16
    ∧ ninthChanged 17 ≠ zeroBuf 17
    ∧ elem16 ninthChanged 8 ≠ elem16 zeroBuf 8
    ∧ distance_compare_avx2_f16 ninthChanged zeroBuf 9 =
        distance_compare_avx2_f16 zeroBuf zeroBuf 9 := by
  refine ⟨?_, by decide, by decide, by decide, ?_⟩
  · intro k
    by_cases h16 : k = 16
    · right; left; exact h16
    · by_cases h17 : k = 17
      · right; right; exact h17
      · left; simp [ninthChanged, zeroBuf, h16, h17]
  · norm_num [distance_compare_avx2_f16, finalAcc, vecIters, remIndices, stepVec, stepRem,
      horizontalSum, lane16, packBE, punToFloat, decode16, decode32, ninthChanged, zeroBuf,
      show List.range 1 = [0] from rfl,
      show ((0 : Fin 8) : Nat) = 0 from rfl, show ((1 : Fin 8) : Nat) = 1 from rfl,
      show ((2 : Fin 8) : Nat) = 2 from rfl, show ((3 : Fin 8) : Nat) = 3 from rfl,
      show ((4 : Fin 8) : Nat) = 4 from rfl, show ((5 : Fin 8) : Nat) = 5 from rfl,
      show ((6 : Fin 8) : Nat) = 6 from rfl, show ((7 : Fin 8) : Nat) = 7 from rfl]
